import Mathlib

/-!
Verification of the bibval validation pipeline (fusion, matcher, status
assignment) against its natural-language specification.

The Rust source is embedded shallowly:

* `Entry`, `Discrepancy`, `ValidationResult`, `FusedResult`, `EntryStatus`
  mirror the structs/enums of `src/entry.rs`, `src/fusion.rs`, `src/report.rs`.
* `f64` scores (confidence, similarity) are modelled as exact rationals `ℚ`.
* The external `strsim::jaro_winkler` metric and the Unicode character tables
  used by `normalize_string` are not part of this repository; they are
  abstracted as parameters (`jw : String → String → ℚ`, a `CharModel`).
* Rust's `HashMap` has an unspecified, per-map-randomized iteration order.
  Every place the source iterates a `HashMap` (`fuse_year`, `fuse_authors`)
  the embedding takes the list of keys in iteration order as an explicit
  parameter, constrained to be a permutation of the distinct keys actually
  inserted (`yearOrderOK`, `countOrderOK`).
* Rust's `Iterator::max_by` / `max_by_key` return the last maximal element;
  this is `lastMaxByKey` below.
-/

namespace BibVal

/-- `ApiSource` from `src/entry.rs` (the four variants the enum declares). -/
inductive ApiSource where
  | CrossRef
  | Dblp
  | ArXiv
  | SemanticScholar
deriving DecidableEq

/-- `Display for ApiSource` from `src/entry.rs`. -/
def ApiSource.display : ApiSource → String
  | .CrossRef => "CrossRef"
  | .Dblp => "DBLP"
  | .ArXiv => "ArXiv"
  | .SemanticScholar => "Semantic Scholar"

/-- `Severity` from `src/entry.rs`. -/
inductive Severity where
  | Info
  | Warning
  | Error
deriving DecidableEq

/-- `DiscrepancyField` from `src/entry.rs`. -/
inductive DiscrepancyField where
  | Title
  | Authors
  | Year
  | Venue
  | Doi
deriving DecidableEq

/-- `Entry` from `src/entry.rs`; `i32` years become `Int`. -/
structure Entry where
  key : String
  entry_type : String
  title : Option String := none
  authors : List String := []
  year : Option Int := none
  venue : Option String := none
  doi : Option String := none
  arxiv_id : Option String := none
  url : Option String := none
deriving DecidableEq

/-- `Discrepancy` from `src/entry.rs`. -/
structure Discrepancy where
  field : DiscrepancyField
  severity : Severity
  local_value : String
  remote_value : String
  message : String
deriving DecidableEq

/-- `ValidationResult` from `src/entry.rs`; the `f64` confidence is `ℚ`. -/
structure ValidationResult where
  source : ApiSource
  matched_entry : Option Entry
  confidence : ℚ
  discrepancies : List Discrepancy
deriving DecidableEq

/-- `FusedResult` from `src/fusion.rs`. -/
structure FusedResult where
  sources : List ApiSource
  discrepancies : List Discrepancy
  has_matches : Bool
deriving DecidableEq

/-- The retention filter of `fuse_results` (`src/fusion.rs` line 19):
`r.matched_entry.is_some() && r.confidence > 0.0`. -/
def retainedP (r : ValidationResult) : Bool :=
  r.matched_entry.isSome && decide (0 < r.confidence)

/-- The retained sublist (`valid_results` in `fuse_results`). -/
def retainedList (results : List ValidationResult) : List ValidationResult :=
  results.filter retainedP

/-- Rust's `Iterator::max_by_key` / `max_by`: the maximum by a key function,
returning the LAST maximal element ("If several elements are equally maximum,
the last element is returned"). -/
def lastMaxByKey {β γ : Type} [LinearOrder γ] (f : β → γ) : List β → Option β
  | [] => none
  | b :: bs => some (bs.foldl (fun cur nb => if f cur ≤ f nb then nb else cur) b)

/-- The remote year a `ValidationResult` contributes to the year tally
(`fuse_year` lines 64-70: matched entry present and carrying a year). -/
def remoteYearOf (r : ValidationResult) : Option Int :=
  r.matched_entry.bind (fun m => m.year)

/-- All remote years contributed by a result list, in order. -/
def remoteYears (results : List ValidationResult) : List Int :=
  results.filterMap remoteYearOf

/-- The bucket the `year_counts` hash map holds at key `y`: the sources of
the results whose matched entry has year `y`, in insertion (= result) order. -/
def yearVotes (results : List ValidationResult) (y : Int) : List ApiSource :=
  results.filterMap (fun r =>
    match remoteYearOf r with
    | some y2 => if y2 = y then some r.source else none
    | none => none)

/-- Admissible iteration orders of the `year_counts` hash map: the distinct
remote years, each exactly once, in an arbitrary order. -/
def yearOrderOK (results : List ValidationResult) (order : List Int) : Prop :=
  order.Perm (remoteYears results).dedup

/-- The `(consensus_year, sources)` pair `fuse_year` selects (lines 77-79):
`year_counts.iter().max_by_key(|(_, sources)| sources.len())`, iterating the
buckets in the hash map's order. -/
def modalYearChoice (order : List Int) (results : List ValidationResult) :
    Option (Int × List ApiSource) :=
  lastMaxByKey (fun b => b.2.length) (order.map (fun y => (y, yearVotes results y)))

/-- `fuse_year` from `src/fusion.rs` (lines 59-101), with the hash-map
iteration order of the distinct years as the explicit parameter `order`. -/
def fuseYear (order : List Int) (loc : Entry) (results : List ValidationResult) :
    Option Discrepancy :=
  match loc.year with
  | none => none
  | some localYear =>
    match modalYearChoice order results with
    | none => none
    | some (consensusYear, sources) =>
      if consensusYear ≠ localYear ∧ 2 ≤ sources.length then
        some
          { field := .Year
            severity := .Error
            local_value := toString localYear
            remote_value := toString consensusYear
            message := "Year mismatch: " ++ toString localYear ++ " vs "
              ++ toString consensusYear ++ " (agreed by "
              ++ String.intercalate ", " (sources.map ApiSource.display) ++ ")" }
      else none

/-- The predicate of `fuse_title`'s `find` (`src/fusion.rs` line 111):
a Title discrepancy of Error severity. -/
def titleErrP (d : Discrepancy) : Bool :=
  decide (d.field = DiscrepancyField.Title) && decide (d.severity = Severity.Error)

/-- One result's contribution to `title_issues` (`fuse_title` lines 106-114):
the first Error-severity Title discrepancy of the result, with its source. -/
def titleIssueOf (r : ValidationResult) : Option (ApiSource × Discrepancy) :=
  (r.discrepancies.find? titleErrP).map (fun d => (r.source, d))

/-- Whether a result's discrepancy list contains an Error-severity Title
discrepancy. -/
def hasTitleErr (r : ValidationResult) : Bool :=
  r.discrepancies.any titleErrP

/-- `fuse_title` from `src/fusion.rs` (lines 104-135). -/
def fuseTitle (results : List ValidationResult) : Option Discrepancy :=
  let issues := results.filterMap titleIssueOf
  match issues with
  | i0 :: _ :: _ =>
    some
      { field := .Title
        severity := .Error
        local_value := i0.2.local_value
        remote_value := i0.2.remote_value
        message := i0.2.message ++ " (confirmed by "
          ++ String.intercalate ", " (issues.map (fun i => i.1.display)) ++ ")" }
  | _ => none

/-- The author-count key a result inserts into `count_mismatches`
(`fuse_authors` lines 143-149): the matched entry's author count when it is
non-empty and differs from the local count. -/
def mismatchCountOf (loc : Entry) (r : ValidationResult) : Option Nat :=
  match r.matched_entry with
  | some m =>
    if m.authors ≠ [] ∧ m.authors.length ≠ loc.authors.length then
      some m.authors.length
    else none
  | none => none

/-- All author-count insertions, in order. -/
def mismatchCounts (loc : Entry) (results : List ValidationResult) : List Nat :=
  results.filterMap (mismatchCountOf loc)

/-- The tally `count_mismatches` holds at key `n`. -/
def countVotes (loc : Entry) (results : List ValidationResult) (n : Nat) : Nat :=
  (mismatchCounts loc results).count n

/-- Admissible iteration orders of the `count_mismatches` hash map. -/
def countOrderOK (loc : Entry) (results : List ValidationResult)
    (order : List Nat) : Prop :=
  order.Perm (mismatchCounts loc results).dedup

/-- `fuse_authors` from `src/fusion.rs` (lines 138-169), with the hash-map
iteration order of the distinct counts as the explicit parameter `order`. -/
def fuseAuthors (order : List Nat) (loc : Entry) (results : List ValidationResult) :
    List Discrepancy :=
  let buckets := order.map (fun n => (n, countVotes loc results n))
  match lastMaxByKey (fun b => b.2) buckets with
  | none => []
  | some (remoteCount, agreement) =>
    if 2 ≤ agreement ∨ (results.length = 1 ∧ agreement = 1) then
      [{ field := .Authors
         severity := .Warning
         local_value := toString loc.authors.length ++ " authors"
         remote_value := toString remoteCount ++ " authors"
         message := "Author count differs: " ++ toString loc.authors.length
           ++ " (local) vs " ++ toString remoteCount ++ " (remote)" }]
    else []

/-- `check_missing_doi` from `src/fusion.rs` (lines 172-193). -/
def checkMissingDoi (loc : Entry) (results : List ValidationResult) :
    Option Discrepancy :=
  match loc.doi with
  | some _ => none
  | none =>
    match results.findSome? (fun r => r.matched_entry.bind (fun m => m.doi)) with
    | some doi =>
      some
        { field := .Doi
          severity := .Warning
          local_value := "(none)"
          remote_value := doi
          message := "Missing DOI in local entry" }
    | none => none

/-- `fuse_results` from `src/fusion.rs` (lines 15-56); `yorder` / `corder`
are the hash-map iteration orders used by `fuse_year` / `fuse_authors`. -/
def fuseResults (yorder : List Int) (corder : List Nat) (loc : Entry)
    (results : List ValidationResult) : FusedResult :=
  let valid := results.filter retainedP
  if valid.isEmpty then
    { sources := [], discrepancies := [], has_matches := false }
  else
    { sources := valid.map (fun r => r.source)
      discrepancies :=
        (fuseYear yorder loc valid).toList ++ (fuseTitle valid).toList
          ++ fuseAuthors corder loc valid ++ (checkMissingDoi loc valid).toList
      has_matches := true }

/-- `EntryStatus` from `src/report.rs`. -/
inductive EntryStatus where
  | Ok (source : ApiSource)
  | Warning
  | Error
  | NotFound
  | Failed (reason : String)
deriving DecidableEq

/-- `determine_status` from `src/lib.rs` (lines 393-416). -/
def determineStatus (fused : FusedResult) : EntryStatus :=
  if fused.has_matches = false then .NotFound
  else
    let hasErrors := fused.discrepancies.any (fun d => decide (d.severity = Severity.Error))
    let hasWarnings := fused.discrepancies.any (fun d => decide (d.severity = Severity.Warning))
    if hasErrors then .Error
    else if hasWarnings then .Warning
    else .Ok (fused.sources.headD ApiSource.CrossRef)

/-- The downgrade step of `compute_status` (`src/lib.rs` lines 426-439):
only an `Ok(_)` status is changed, to `Error` if any individual result carries
an Error-severity discrepancy, else to `Warning` if any carries a Warning. -/
def downgrade (status : EntryStatus) (results : List ValidationResult) : EntryStatus :=
  match status with
  | .Ok s =>
    let hasErrors := results.any (fun r =>
      r.discrepancies.any (fun d => decide (d.severity = Severity.Error)))
    let hasWarnings := results.any (fun r =>
      r.discrepancies.any (fun d => decide (d.severity = Severity.Warning)))
    if hasErrors then .Error
    else if hasWarnings then .Warning
    else .Ok s
  | st => st

/-- The failure-promotion step of `compute_status` (`src/lib.rs` lines
441-446): `NotFound` with at least one captured API error becomes `Failed`
with the messages joined by "; ". -/
def failurePromotion (status : EntryStatus) (api_errors : List String) : EntryStatus :=
  match status with
  | .NotFound =>
    if api_errors.isEmpty then .NotFound
    else .Failed (String.intercalate "; " api_errors)
  | st => st

/-- `compute_status` from `src/lib.rs` (lines 418-446). -/
def computeStatus (fused : FusedResult) (results : List ValidationResult)
    (api_errors : List String) : EntryStatus :=
  failurePromotion (downgrade (determineStatus fused) results) api_errors

/-! ## Matcher (`src/matcher.rs`)

`f64` similarity scores are exact rationals.  The external
`strsim::jaro_winkler` function and the Unicode-aware `normalize_string`
pre-processing are abstracted as the parameters `jw` and `norm`: every
matcher definition below takes them and applies them exactly where the
source calls `jaro_winkler(&normalize_string(..), &normalize_string(..))`. -/

/-- `TITLE_MATCH_THRESHOLD = 0.85` from `src/matcher.rs`. -/
def TITLE_MATCH_THRESHOLD : ℚ := Rat.divInt 85 100

/-- `TITLE_WARNING_THRESHOLD = 0.90` from `src/matcher.rs`. -/
def TITLE_WARNING_THRESHOLD : ℚ := Rat.divInt 90 100

/-- `AUTHOR_MATCH_THRESHOLD = 0.80` from `src/matcher.rs`. -/
def AUTHOR_MATCH_THRESHOLD : ℚ := Rat.divInt 80 100

/-- `title_similarity` from `src/matcher.rs` (lines 150-159): Jaro-Winkler of
the normalized titles, `0.0` when either title is absent. -/
def titleSimilarity (jw : String → String → ℚ) (norm : String → String)
    (a b : Entry) : ℚ :=
  match a.title, b.title with
  | some ta, some tb => jw (norm ta) (norm tb)
  | _, _ => 0

/-- `find_best_match` from `src/matcher.rs` (lines 162-168): score each
candidate, keep those at or above `TITLE_MATCH_THRESHOLD`, take the maximum
by score (`max_by` keeps the last maximal element). -/
def findBestMatch (jw : String → String → ℚ) (norm : String → String)
    (target : Entry) (candidates : List Entry) : Option (Entry × ℚ) :=
  let scored := (candidates.map (fun c => (c, titleSimilarity jw norm target c))).filter
    (fun p => decide (TITLE_MATCH_THRESHOLD ≤ p.2))
  lastMaxByKey (fun p => p.2) scored

/-- Rust's `{:.0}` formatting of a (finite, here rational) float: the value
rounded to the nearest integer, ties to even.  Computed on the reduced
numerator and denominator: for `den > 0`, `num.ediv den` is the floor and
`num.emod den ∈ [0, den)` the remainder, so the fractional part is below,
above or exactly one half according as `2 * rem` compares to `den`. -/
def roundHalfEven (q : ℚ) : Int :=
  let f := q.num.ediv q.den
  let r := q.num.emod q.den
  if 2 * r < (q.den : Int) then f
  else if (q.den : Int) < 2 * r then f + 1
  else if f % 2 = 0 then f else f + 1

/-- Truncation toward zero of a rational (the rounding mode the spec claims
for similarity percentages). -/
def truncToZero (q : ℚ) : Int :=
  q.num / q.den

/-- The title branch of `compare_entries` (`src/matcher.rs` lines 16-45). -/
def compareTitles (jw : String → String → ℚ) (norm : String → String)
    (loc rem : Entry) : List Discrepancy :=
  match loc.title, rem.title with
  | some lt, some rt =>
    let s := jw (norm lt) (norm rt)
    if s < TITLE_MATCH_THRESHOLD then
      [{ field := .Title
         severity := .Error
         local_value := lt
         remote_value := rt
         message := "Title significantly different (similarity: "
           ++ toString (roundHalfEven (s * 100)) ++ "%)" }]
    else if s < TITLE_WARNING_THRESHOLD then
      [{ field := .Title
         severity := .Warning
         local_value := lt
         remote_value := rt
         message := "Title slightly different (similarity: "
           ++ toString (roundHalfEven (s * 100)) ++ "%)" }]
    else []
  | _, _ => []

/-- `compare_authors` from `src/matcher.rs` (lines 97-147). -/
def compareAuthors (jw : String → String → ℚ) (norm : String → String)
    (locA remA : List String) : List Discrepancy :=
  if locA.isEmpty || remA.isEmpty then []
  else
    (if locA.length ≠ remA.length then
      [{ field := .Authors
         severity := .Warning
         local_value := toString locA.length ++ " authors"
         remote_value := toString remA.length ++ " authors"
         message := "Author count differs: " ++ toString locA.length
           ++ " (local) vs " ++ toString remA.length ++ " (remote)" }]
    else [])
    ++ locA.flatMap (fun la =>
      match lastMaxByKey (fun p => p.2)
          (remA.map (fun ra => (ra, jw (norm la) (norm ra)))) with
      | some (ra, s) =>
        if s < AUTHOR_MATCH_THRESHOLD then
          [{ field := .Authors
             severity := .Warning
             local_value := la
             remote_value := ra
             message := "Author name spelling may differ: '" ++ la
               ++ "' vs '" ++ ra ++ "'" }]
        else []
      | none => [])

/-- `compare_entries` from `src/matcher.rs` (lines 12-94): title, year,
authors, missing DOI, venue, in that order. -/
def compareEntries (jw : String → String → ℚ) (norm : String → String)
    (loc rem : Entry) : List Discrepancy :=
  compareTitles jw norm loc rem
  ++ (match loc.year, rem.year with
      | some ly, some ry =>
        if ly ≠ ry then
          [{ field := .Year
             severity := .Error
             local_value := toString ly
             remote_value := toString ry
             message := "Year mismatch: " ++ toString ly ++ " vs " ++ toString ry }]
        else []
      | _, _ => [])
  ++ compareAuthors jw norm loc.authors rem.authors
  ++ (match loc.doi, rem.doi with
      | none, some rdoi =>
        [{ field := .Doi
           severity := .Warning
           local_value := "(none)"
           remote_value := rdoi
           message := "Missing DOI in local entry" }]
      | _, _ => [])
  ++ (match loc.venue, rem.venue with
      | some lv, some rv =>
        if jw (norm lv) (norm rv) < Rat.divInt 70 100 then
          [{ field := .Venue
             severity := .Info
             local_value := lv
             remote_value := rv
             message := "Venue name differs" }]
        else []
      | _, _ => [])

/-! ## Normalization (`src/entry.rs`)

`normalize_string` lower-cases (Rust `str::to_lowercase`, a codepoint-wise
map that may expand one codepoint to several), keeps only alphanumeric or
whitespace codepoints, splits on whitespace runs and rejoins with single
spaces.  The Unicode character tables behind `to_lowercase`,
`is_alphanumeric` and `is_whitespace` are external to the repository, so the
character type and these three functions are a parameter (`CharModel`). -/

/-- The character-level operations `normalize_string` consumes: Unicode
lowercasing (possibly one-to-many), the alphanumeric and whitespace
classifications, and the space character used by `join(" ")`. -/
structure CharModel (α : Type) where
  toLower : α → List α
  isAlnum : α → Bool
  isWs : α → Bool
  space : α

/-- The filter of `normalize_string`: keep alphanumeric or whitespace. -/
def keepP {α : Type} (M : CharModel α) (c : α) : Bool :=
  M.isAlnum c || M.isWs c

/-- Rust `str::split_whitespace`: the maximal runs of non-whitespace
characters, in order, empties discarded. -/
def splitWs {α : Type} (isWs : α → Bool) : List α → List (List α)
  | [] => []
  | c :: cs =>
    if isWs c then splitWs isWs cs
    else
      ((c :: cs).takeWhile (fun x => !isWs x))
        :: splitWs isWs ((c :: cs).dropWhile (fun x => !isWs x))
termination_by l => l.length
decreasing_by
  · simp
  · simp only [List.dropWhile_cons]
    rename_i h
    rw [if_pos (by simp [h])]
    exact Nat.lt_succ_of_le (List.dropWhile_sublist _).length_le

/-- `normalize_string` from `src/entry.rs` (lines 53-61), over an abstract
character model: lowercase, filter, split on whitespace, rejoin with single
spaces. -/
def normalizeString {α : Type} (M : CharModel α) (s : List α) : List α :=
  List.intercalate [M.space]
    (splitWs M.isWs ((s.flatMap M.toLower).filter (keepP M)))

/-! ## Auxiliary predicates and concrete instances used in the statements -/

/-- Among `keys`, at most one key attains the maximal vote count.  This is
the condition under which a `max_by_key` over a hash map's buckets does not
depend on the iteration order. -/
def uniqueMaxKeys {γ : Type} (keys : List γ) (votes : γ → Nat) : Prop :=
  ∀ k1 ∈ keys, ∀ k2 ∈ keys,
    (∀ k ∈ keys, votes k ≤ votes k1) → (∀ k ∈ keys, votes k ≤ votes k2) → k1 = k2

instance (results : List ValidationResult) (order : List Int) :
    Decidable (yearOrderOK results order) :=
  inferInstanceAs (Decidable (order.Perm (remoteYears results).dedup))

instance (loc : Entry) (results : List ValidationResult) (order : List Nat) :
    Decidable (countOrderOK loc results order) :=
  inferInstanceAs (Decidable (order.Perm (mismatchCounts loc results).dedup))

instance {γ : Type} [DecidableEq γ] (keys : List γ) (votes : γ → Nat) :
    Decidable (uniqueMaxKeys keys votes) :=
  inferInstanceAs (Decidable (∀ k1 ∈ keys, ∀ k2 ∈ keys,
    (∀ k ∈ keys, votes k ≤ votes k1) → (∀ k ∈ keys, votes k ≤ votes k2) → k1 = k2))

/-- A local entry with just a year, as built by `Entry::new` plus a year. -/
def entryWithYear (y : Option Int) : Entry :=
  { key := "test", entry_type := "article", year := y }

/-- A matched validator result carrying a remote year (the shape of
`make_result` in the `src/fusion.rs` tests). -/
def resultWithYear (s : ApiSource) (y : Option Int) : ValidationResult :=
  { source := s
    matched_entry := some (entryWithYear y)
    confidence := Rat.divInt 9 10
    discrepancies := [] }

/-- Local entry of the two-witness year-consensus scenario. -/
def locY : Entry := entryWithYear (some 2020)

/-- Results of the two-witness year-consensus scenario: CrossRef and DBLP
report 2019, Semantic Scholar reports 2020. -/
def resY : List ValidationResult :=
  [resultWithYear .CrossRef (some 2019), resultWithYear .Dblp (some 2019),
   resultWithYear .SemanticScholar (some 2020)]

/-- Results of the tied-modal-year scenario: 2019 and 2020 both get two
votes, while the local year is 2020. -/
def resTie : List ValidationResult :=
  [resultWithYear .CrossRef (some 2019), resultWithYear .Dblp (some 2019),
   resultWithYear .ArXiv (some 2020), resultWithYear .SemanticScholar (some 2020)]

/-- A retained CrossRef result with no year, no authors and no DOI. -/
def resPlain : ValidationResult :=
  { source := .CrossRef
    matched_entry := some (entryWithYear none)
    confidence := 1
    discrepancies := [] }

/-- An Error-severity Title discrepancy, as an individual validator reports
it. -/
def dTitle : Discrepancy :=
  { field := .Title
    severity := .Error
    local_value := "Local Title"
    remote_value := "Remote Title"
    message := "Title significantly different (similarity: 40%)" }

/-- A Warning-severity Title discrepancy. -/
def dWarn : Discrepancy :=
  { field := .Title
    severity := .Warning
    local_value := "local"
    remote_value := "remote"
    message := "difference" }

/-- A validator result whose discrepancy list contains `dTitle`. -/
def resTitleErr (s : ApiSource) : ValidationResult :=
  { source := s
    matched_entry := some (entryWithYear none)
    confidence := 1
    discrepancies := [dWarn, dTitle] }

/-- The fused Title discrepancy produced when CrossRef and DBLP both carry
`dTitle`. -/
def fusedTitleDisc : Discrepancy :=
  { field := .Title
    severity := .Error
    local_value := "Local Title"
    remote_value := "Remote Title"
    message := "Title significantly different (similarity: 40%) (confirmed by CrossRef, DBLP)" }

/-- An entry with the given title (and nothing else). -/
def entryWithTitle (t : Option String) : Entry :=
  { key := "t", entry_type := "article", title := t }

/-- A similarity oracle for the matcher scenarios: `1` on equal strings,
`0.86` otherwise. -/
def jwNear (a b : String) : ℚ :=
  if a = b then 1 else Rat.divInt 86 100

/-- A similarity oracle that puts every pair at `0.856`: between the match
and warning thresholds, and with a fractional percentage. -/
def jwPct (_a _b : String) : ℚ :=
  Rat.divInt 107 125

/-- Local entry of the percentage-rendering scenario: a title, and a DOI so
that no missing-DOI discrepancy is emitted. -/
def locPct : Entry :=
  { key := "k", entry_type := "article", title := some "a", doi := some "10.1/x" }

/-- Remote entry of the percentage-rendering scenario. -/
def remPct : Entry :=
  { key := "r", entry_type := "article", title := some "b" }

/-- A three-character alphabet for exercising `normalizeString`: `0` is the
space, `1` a lowercase letter, `2` an uppercase letter lowering to `1`. -/
def charModel3 : CharModel (Fin 3) :=
  { toLower := fun c => if c = 2 then [1] else [c]
    isAlnum := fun c => c = 1 || c = 2
    isWs := fun c => c = 0
    space := 0 }

/-! ## Lemmas about `lastMaxByKey` (Rust `max_by` / `max_by_key`) -/

theorem lastMaxByKey_eq_none {β γ : Type} [LinearOrder γ] (f : β → γ) (l : List β) :
    lastMaxByKey f l = none ↔ l = [] := by
  cases l <;> simp [lastMaxByKey]

theorem foldl_pickMax_mem {β γ : Type} [LinearOrder γ] (f : β → γ) (bs : List β) :
    ∀ b0 : β, bs.foldl (fun cur nb => if f cur ≤ f nb then nb else cur) b0 ∈ b0 :: bs := by
  induction bs with
  | nil => intro b0; simp
  | cons b1 bs ih =>
    intro b0
    simp only [List.foldl_cons]
    by_cases h : f b0 ≤ f b1
    · rw [if_pos h]
      have := ih b1
      simp only [List.mem_cons] at this ⊢
      tauto
    · rw [if_neg h]
      have := ih b0
      simp only [List.mem_cons] at this ⊢
      tauto

theorem foldl_pickMax_le {β γ : Type} [LinearOrder γ] (f : β → γ) (bs : List β) :
    ∀ b0 : β, ∀ b' ∈ b0 :: bs,
      f b' ≤ f (bs.foldl (fun cur nb => if f cur ≤ f nb then nb else cur) b0) := by
  induction bs with
  | nil =>
    intro b0 b' hb'
    simp only [List.mem_singleton] at hb'
    subst hb'
    simp
  | cons b1 bs ih =>
    intro b0 b' hb'
    simp only [List.foldl_cons]
    by_cases h : f b0 ≤ f b1
    · rw [if_pos h]
      rcases List.mem_cons.mp hb' with rfl | hmem
      · exact le_trans h (ih b1 b1 (List.mem_cons_self _ _))
      · exact ih b1 b' hmem
    · rw [if_neg h]
      rcases List.mem_cons.mp hb' with rfl | hmem
      · exact ih b' b' (List.mem_cons_self _ _)
      · rcases List.mem_cons.mp hmem with rfl | hmem2
        · exact le_trans (le_of_not_le h) (ih b0 b0 (List.mem_cons_self _ _))
        · exact ih b0 b' (List.mem_cons_of_mem _ hmem2)

theorem lastMaxByKey_mem {β γ : Type} [LinearOrder γ] {f : β → γ} {l : List β} {b : β}
    (h : lastMaxByKey f l = some b) : b ∈ l := by
  cases l with
  | nil => simp [lastMaxByKey] at h
  | cons b0 bs =>
    simp only [lastMaxByKey, Option.some.injEq] at h
    exact h ▸ foldl_pickMax_mem f bs b0

theorem lastMaxByKey_le {β γ : Type} [LinearOrder γ] {f : β → γ} {l : List β} {b : β}
    (h : lastMaxByKey f l = some b) : ∀ b' ∈ l, f b' ≤ f b := by
  cases l with
  | nil => simp [lastMaxByKey] at h
  | cons b0 bs =>
    simp only [lastMaxByKey, Option.some.injEq] at h
    exact h ▸ foldl_pickMax_le f bs b0

theorem lastMaxByKey_isSome {β γ : Type} [LinearOrder γ] (f : β → γ) (l : List β)
    (h : l ≠ []) : (lastMaxByKey f l).isSome := by
  cases l with
  | nil => exact absurd rfl h
  | cons b0 bs => simp [lastMaxByKey]

/-! ## Status assignment (claims about `src/lib.rs`) -/

theorem determineStatus_eq_notFound (fused : FusedResult) :
    determineStatus fused = .NotFound ↔ fused.has_matches = false := by
  by_cases h : fused.has_matches = false
  · simp [determineStatus, h]
  · simp only [determineStatus, if_neg h]
    constructor
    · intro hcontra
      by_cases he : fused.discrepancies.any (fun d => decide (d.severity = Severity.Error))
      · simp [he] at hcontra
      · by_cases hw : fused.discrepancies.any (fun d => decide (d.severity = Severity.Warning))
        · simp [he, hw] at hcontra
        · simp [he, hw] at hcontra
    · intro hcontra
      exact absurd hcontra h

theorem downgrade_eq_notFound (st : EntryStatus) (results : List ValidationResult) :
    downgrade st results = .NotFound ↔ st = .NotFound := by
  cases st with
  | Ok s =>
    simp only [downgrade]
    constructor
    · intro hcontra
      by_cases he : results.any (fun r =>
          r.discrepancies.any (fun d => decide (d.severity = Severity.Error)))
      · simp [he] at hcontra
      · by_cases hw : results.any (fun r =>
            r.discrepancies.any (fun d => decide (d.severity = Severity.Warning)))
        · simp [he, hw] at hcontra
        · simp [he, hw] at hcontra
    · intro hcontra
      cases hcontra
  | Warning => simp [downgrade]
  | Error => simp [downgrade]
  | NotFound => simp [downgrade]
  | Failed r => simp [downgrade]

theorem downgrade_ne_failed (st : EntryStatus) (results : List ValidationResult)
    (h : ∀ r, st ≠ .Failed r) : ∀ r, downgrade st results ≠ .Failed r := by
  intro r
  cases st with
  | Ok s =>
    simp only [downgrade]
    by_cases he : results.any (fun r =>
        r.discrepancies.any (fun d => decide (d.severity = Severity.Error)))
    · simp [he]
    · by_cases hw : results.any (fun r =>
          r.discrepancies.any (fun d => decide (d.severity = Severity.Warning)))
      · simp [he, hw]
      · simp [he, hw]
  | Warning => simp [downgrade]
  | Error => simp [downgrade]
  | NotFound => simp [downgrade]
  | Failed r' => exact h r

theorem determineStatus_ne_failed (fused : FusedResult) :
    ∀ r, determineStatus fused ≠ .Failed r := by
  intro r
  by_cases h : fused.has_matches = false
  · simp [determineStatus, h]
  · simp only [determineStatus, if_neg h]
    by_cases he : fused.discrepancies.any (fun d => decide (d.severity = Severity.Error))
    · simp [he]
    · by_cases hw : fused.discrepancies.any (fun d => decide (d.severity = Severity.Warning))
      · simp [he, hw]
      · simp [he, hw]

/-- C4: the final status is `Failed(reason)` exactly when no provider result
was accepted as a match (so the base status is `NotFound`) and at least one
provider returned an error; the reason is the error messages joined by "; "
in encounter order. -/
theorem computeStatus_failed_iff (fused : FusedResult)
    (results : List ValidationResult) (api_errors : List String) (r : String) :
    computeStatus fused results api_errors = .Failed r ↔
      fused.has_matches = false ∧ api_errors ≠ [] ∧
        r = String.intercalate "; " api_errors := by
  unfold computeStatus
  rcases hst : downgrade (determineStatus fused) results with s | _ | _ | _ | r'
  case NotFound =>
    have hnf : fused.has_matches = false := by
      have h1 := (downgrade_eq_notFound (determineStatus fused) results).mp hst
      exact (determineStatus_eq_notFound fused).mp h1
    by_cases he : api_errors.isEmpty
    · simp only [failurePromotion, if_pos he]
      have : api_errors = [] := List.isEmpty_iff.mp he
      simp [hnf, this]
    · simp only [failurePromotion, if_neg he]
      have hne : api_errors ≠ [] := fun hcontra => he (by simp [hcontra])
      constructor
      · intro hfe
        cases hfe
        exact ⟨hnf, hne, rfl⟩
      · intro ⟨_, _, hr⟩
        rw [hr]
  case Failed =>
    exact absurd hst
      (downgrade_ne_failed (determineStatus fused) results
        (determineStatus_ne_failed fused) r')
  all_goals
    simp only [failurePromotion]
    constructor
    · intro hfe
      cases hfe
    · intro ⟨hnf, _, _⟩
      have hdn : downgrade (determineStatus fused) results = .NotFound :=
        (downgrade_eq_notFound _ _).mpr ((determineStatus_eq_notFound _).mpr hnf)
      rw [hst] at hdn
      cases hdn

theorem any_sev_eq (results : List ValidationResult) (sev : Severity) :
    (results.any (fun r => r.discrepancies.any (fun d => decide (d.severity = sev))) = true) ↔
      ∃ r ∈ results, ∃ d ∈ r.discrepancies, d.severity = sev := by
  simp [List.any_eq_true]

/-- C4 witness: a concrete run of the failure promotion. -/
theorem computeStatus_failed_iff_witness :
    computeStatus { sources := [], discrepancies := [], has_matches := false } []
        ["a: x", "b: y"] = .Failed "a: x; b: y" :=
  (computeStatus_failed_iff _ _ _ _).mpr ⟨rfl, by decide, by decide⟩

/-- C1: the base status follows the §4.5.3 pipeline (`NotFound` without
matches, `Error` on a fused Error, `Warning` on a fused Warning, else
`Ok(first source)`), and the downgrade step only ever changes an `Ok(_)`
status (to `Error` if some individual result carries an Error-severity
discrepancy, else to `Warning` if some carries a Warning); in particular it
never turns `Error` into `Warning` nor `Warning` into `Ok`. -/
theorem status_pipeline_spec (fused : FusedResult) (results : List ValidationResult) :
    (fused.has_matches = false → determineStatus fused = .NotFound)
  ∧ (fused.has_matches = true → (∃ d ∈ fused.discrepancies, d.severity = Severity.Error) →
      determineStatus fused = .Error)
  ∧ (fused.has_matches = true → (∀ d ∈ fused.discrepancies, d.severity ≠ Severity.Error) →
      (∃ d ∈ fused.discrepancies, d.severity = Severity.Warning) →
      determineStatus fused = .Warning)
  ∧ (fused.has_matches = true →
      (∀ d ∈ fused.discrepancies, d.severity ≠ Severity.Error ∧ d.severity ≠ Severity.Warning) →
      determineStatus fused = .Ok (fused.sources.headD ApiSource.CrossRef))
  ∧ (∀ st : EntryStatus, (∀ s, st ≠ .Ok s) → downgrade st results = st)
  ∧ (∀ s : ApiSource, downgrade (.Ok s) results =
      if ∃ r ∈ results, ∃ d ∈ r.discrepancies, d.severity = Severity.Error then .Error
      else if ∃ r ∈ results, ∃ d ∈ r.discrepancies, d.severity = Severity.Warning then .Warning
      else .Ok s)
  ∧ downgrade .Error results = .Error
  ∧ downgrade .Warning results = .Warning := by
  refine ⟨?_, ?_, ?_, ?_, ?_, ?_, rfl, rfl⟩
  · intro h
    simp [determineStatus, h]
  · intro h1 h2
    have he : fused.discrepancies.any (fun d => decide (d.severity = Severity.Error)) = true := by
      simp only [List.any_eq_true]
      obtain ⟨d, hd, hs⟩ := h2
      exact ⟨d, hd, by simp [hs]⟩
    simp [determineStatus, h1, he]
  · intro h1 h2 h3
    have he : fused.discrepancies.any (fun d => decide (d.severity = Severity.Error)) = false := by
      simp only [List.any_eq_false, decide_eq_true_eq]
      exact h2
    have hw : fused.discrepancies.any (fun d => decide (d.severity = Severity.Warning)) = true := by
      simp only [List.any_eq_true]
      obtain ⟨d, hd, hs⟩ := h3
      exact ⟨d, hd, by simp [hs]⟩
    simp [determineStatus, h1, he, hw]
  · intro h1 h2
    have he : fused.discrepancies.any (fun d => decide (d.severity = Severity.Error)) = false := by
      simp only [List.any_eq_false, decide_eq_true_eq]
      exact fun d hd => (h2 d hd).1
    have hw : fused.discrepancies.any (fun d => decide (d.severity = Severity.Warning)) = false := by
      simp only [List.any_eq_false, decide_eq_true_eq]
      exact fun d hd => (h2 d hd).2
    simp [determineStatus, h1, he, hw]
  · intro st h
    cases st with
    | Ok s => exact absurd rfl (h s)
    | Warning => rfl
    | Error => rfl
    | NotFound => rfl
    | Failed r => rfl
  · intro s
    simp only [downgrade]
    by_cases he : ∃ r ∈ results, ∃ d ∈ r.discrepancies, d.severity = Severity.Error
    · rw [if_pos ((any_sev_eq results Severity.Error).mpr he), if_pos he]
    · rw [if_neg (fun hc => he ((any_sev_eq results Severity.Error).mp hc)), if_neg he]
      by_cases hw : ∃ r ∈ results, ∃ d ∈ r.discrepancies, d.severity = Severity.Warning
      · rw [if_pos ((any_sev_eq results Severity.Warning).mpr hw), if_pos hw]
      · rw [if_neg (fun hc => hw ((any_sev_eq results Severity.Warning).mp hc)), if_neg hw]

/-- C1 witness: the pipeline evaluated on concrete inputs — a fused Error
forces status `Error`, a clean consensus is downgraded to `Error` by a
single provider's Error-severity discrepancy, and `Error` is never changed
by the downgrade. -/
theorem status_pipeline_spec_witness :
    determineStatus { sources := [.CrossRef], discrepancies := [dTitle], has_matches := true }
        = .Error
  ∧ downgrade (.Ok ApiSource.CrossRef) [resTitleErr .Dblp] = .Error
  ∧ downgrade .Error [resTitleErr .Dblp] = .Error := by
  refine ⟨?_, ?_, ?_⟩
  · exact (status_pipeline_spec _ []).2.1 rfl ⟨dTitle, by decide, by decide⟩
  · have h6 := (status_pipeline_spec
      { sources := [.CrossRef], discrepancies := [dTitle], has_matches := true }
      [resTitleErr .Dblp]).2.2.2.2.2.1 ApiSource.CrossRef
    rw [h6, if_pos]
    exact ⟨resTitleErr .Dblp, by decide, dTitle, by decide, by decide⟩
  · exact (status_pipeline_spec
      { sources := [.CrossRef], discrepancies := [dTitle], has_matches := true }
      [resTitleErr .Dblp]).2.2.2.2.2.2.1

/-- C10: the fused result has matches exactly when its `sources` list is
non-empty, which happens exactly when some provider result was retained; and
whenever `has_matches` holds, `sources.first()` is present, so the `CrossRef`
fallback of `unwrap_or` is never taken. -/
theorem fuseResults_matches_iff (yorder : List Int) (corder : List Nat) (loc : Entry)
    (results : List ValidationResult) :
    ((fuseResults yorder corder loc results).has_matches = true ↔
      (fuseResults yorder corder loc results).sources ≠ [])
  ∧ ((fuseResults yorder corder loc results).has_matches = true ↔
      ∃ r ∈ results, retainedP r = true)
  ∧ ((fuseResults yorder corder loc results).has_matches = true →
      ∃ s, (fuseResults yorder corder loc results).sources.head? = some s ∧
        (fuseResults yorder corder loc results).sources.headD ApiSource.CrossRef = s) := by
  simp only [fuseResults]
  by_cases h : (results.filter retainedP).isEmpty = true
  · have hl : results.filter retainedP = [] := List.isEmpty_iff.mp h
    rw [if_pos h]
    refine ⟨by simp, ?_, by simp⟩
    simp only [Bool.false_eq_true, false_iff]
    intro ⟨r, hr, hp⟩
    have : r ∈ results.filter retainedP := List.mem_filter.mpr ⟨hr, hp⟩
    rw [hl] at this
    cases this
  · have hl : results.filter retainedP ≠ [] := fun hc => h (by simp [hc])
    rw [if_neg h]
    obtain ⟨r0, rs0, hcons⟩ := List.exists_cons_of_ne_nil hl
    refine ⟨by simp [hcons], ?_, ?_⟩
    · simp only [true_iff]
      have : r0 ∈ results.filter retainedP := by rw [hcons]; exact List.mem_cons_self _ _
      exact ⟨r0, (List.mem_filter.mp this).1, (List.mem_filter.mp this).2⟩
    · intro _
      exact ⟨r0.source, by simp [hcons], by simp [hcons]⟩

/-- C10 witness: a run with one retained result; the single source heads the
list. -/
theorem fuseResults_matches_iff_witness :
    (fuseResults [] [] (entryWithYear none) [resPlain]).has_matches = true ∧
    ∃ s, (fuseResults [] [] (entryWithYear none) [resPlain]).sources.head? = some s ∧
      (fuseResults [] [] (entryWithYear none) [resPlain]).sources.headD ApiSource.CrossRef = s :=
  ⟨by decide,
    (fuseResults_matches_iff [] [] (entryWithYear none) [resPlain]).2.2 (by decide)⟩

/-- C7 (amended): the `sources` of a fused result are the sources of the
retained results in retention order, one per retained result — with
repetitions when the same provider occurs in several retained results. -/
theorem fuseResults_sources_eq (yorder : List Int) (corder : List Nat) (loc : Entry)
    (results : List ValidationResult) :
    (fuseResults yorder corder loc results).sources
      = (results.filter retainedP).map (fun r => r.source) := by
  simp only [fuseResults]
  by_cases h : (results.filter retainedP).isEmpty = true
  · rw [if_pos h]
    simp [List.isEmpty_iff.mp h]
  · rw [if_neg h]

/-- C7 counterexample: with the same provider retained twice (both hash-map
iteration orders trivially admissible, as no years and no author counts are
tallied), `sources` lists `CrossRef` twice — it is not a list of distinct
sources. -/
theorem fuseResults_sources_not_distinct :
    yearOrderOK (retainedList [resPlain, resPlain]) [] ∧
    countOrderOK (entryWithYear none) (retainedList [resPlain, resPlain]) [] ∧
    (fuseResults [] [] (entryWithYear none) [resPlain, resPlain]).sources
        = [ApiSource.CrossRef, ApiSource.CrossRef] ∧
    ¬ (fuseResults [] [] (entryWithYear none) [resPlain, resPlain]).sources.Nodup := by
  refine ⟨?_, ?_, by decide, by decide⟩
  · simp [yearOrderOK, retainedList, remoteYears, resPlain, entryWithYear, remoteYearOf,
      retainedP]
  · simp [countOrderOK, retainedList, mismatchCounts, resPlain, entryWithYear,
      mismatchCountOf, retainedP]

/-! ## Title consensus (`fuse_title`) -/

theorem titleIssueOf_eq_none (r : ValidationResult) :
    titleIssueOf r = none ↔ hasTitleErr r = false := by
  simp [titleIssueOf, hasTitleErr, List.find?_eq_none, List.any_eq_false]

theorem titleIssueOf_eq_some (r : ValidationResult) (i : ApiSource × Discrepancy)
    (h : titleIssueOf r = some i) :
    hasTitleErr r = true ∧ i.1 = r.source ∧
      r.discrepancies.find? titleErrP = some i.2 := by
  simp only [titleIssueOf] at h
  obtain ⟨d0, hd0, hmap⟩ := Option.map_eq_some'.mp h
  refine ⟨?_, ?_, ?_⟩
  · simp only [hasTitleErr, List.any_eq_true]
    exact ⟨d0, List.mem_of_find?_eq_some hd0, List.find?_some hd0⟩
  · rw [← hmap]
  · rw [← hmap]
    exact hd0

theorem filterMap_titleIssue_length (results : List ValidationResult) :
    (results.filterMap titleIssueOf).length = results.countP hasTitleErr := by
  induction results with
  | nil => rfl
  | cons r rs ih =>
    rw [List.filterMap_cons, List.countP_cons]
    cases hti : titleIssueOf r with
    | none =>
      have hf := (titleIssueOf_eq_none r).mp hti
      simp [hf, ih]
    | some i =>
      have hf := (titleIssueOf_eq_some r i hti).1
      simp [hf, ih]

theorem filterMap_titleIssue_sources (results : List ValidationResult) :
    (results.filterMap titleIssueOf).map (fun i => i.1)
      = (results.filter hasTitleErr).map (fun r => r.source) := by
  induction results with
  | nil => rfl
  | cons r rs ih =>
    rw [List.filterMap_cons, List.filter_cons]
    cases hti : titleIssueOf r with
    | none =>
      have hf := (titleIssueOf_eq_none r).mp hti
      simp [hf, ih]
    | some i =>
      obtain ⟨hf, hsrc, -⟩ := titleIssueOf_eq_some r i hti
      simp [hf, ih, hsrc]

theorem filterMap_titleIssue_head (results : List ValidationResult)
    (i : ApiSource × Discrepancy) (t : List (ApiSource × Discrepancy))
    (h : results.filterMap titleIssueOf = i :: t) :
    ∃ r0, results.find? hasTitleErr = some r0 ∧ i.1 = r0.source ∧
      r0.discrepancies.find? titleErrP = some i.2 := by
  induction results with
  | nil => simp at h
  | cons r rs ih =>
    rw [List.filterMap_cons] at h
    cases hti : titleIssueOf r with
    | none =>
      rw [hti] at h
      have hf := (titleIssueOf_eq_none r).mp hti
      rw [List.find?_cons_of_neg _ (by simp [hf])]
      exact ih h
    | some i' =>
      rw [hti] at h
      injection h with h1 h2
      obtain ⟨hf, hsrc, hfind⟩ := titleIssueOf_eq_some r i' hti
      rw [List.find?_cons_of_pos _ hf]
      exact ⟨r, rfl, h1 ▸ hsrc, h1 ▸ hfind⟩

/-- C3: a fused Title discrepancy is emitted iff at least two retained
results carry an Error-severity Title discrepancy; the emitted Error reuses
the first flagging result's first Title-Error values and appends the
confirming providers to its message. -/
theorem fuseTitle_consensus_spec (results : List ValidationResult) :
    ((fuseTitle results).isSome ↔ 2 ≤ results.countP hasTitleErr)
  ∧ (∀ d, fuseTitle results = some d →
      d.field = .Title ∧ d.severity = .Error ∧
      ∃ r0 d0, results.find? hasTitleErr = some r0 ∧
        r0.discrepancies.find? titleErrP = some d0 ∧
        d.local_value = d0.local_value ∧ d.remote_value = d0.remote_value ∧
        d.message = d0.message ++ " (confirmed by "
          ++ String.intercalate ", "
            ((results.filter hasTitleErr).map (fun r => r.source.display)) ++ ")") := by
  constructor
  · rw [← filterMap_titleIssue_length]
    rcases hi : results.filterMap titleIssueOf with _ | ⟨i0, _ | ⟨i1, t⟩⟩
    · simp [fuseTitle, hi]
    · simp [fuseTitle, hi]
    · simp only [fuseTitle, hi]
      simp only [Option.isSome_some, List.length_cons, true_iff]
      omega
  · intro d hd
    rcases hi : results.filterMap titleIssueOf with _ | ⟨i0, _ | ⟨i1, t⟩⟩ <;>
      simp only [fuseTitle, hi] at hd
    · cases hd
    · cases hd
    · obtain ⟨r0, hfind, hsrc, hfind2⟩ := filterMap_titleIssue_head results i0 (i1 :: t) hi
      cases hd
      refine ⟨rfl, rfl, r0, i0.2, hfind, hfind2, rfl, rfl, ?_⟩
      have hmaps : ((i0 :: i1 :: t).map (fun i => i.1)).map ApiSource.display
          = (results.filter hasTitleErr).map (fun r => r.source.display) := by
        rw [← hi, filterMap_titleIssue_sources, List.map_map]
        rfl
      rw [← hmaps, List.map_map]
      rfl

/-- C3 witness: two providers carrying the same Title Error produce the
fused, confirmed discrepancy; its shape follows the specification. -/
theorem fuseTitle_consensus_spec_witness :
    (fuseTitle [resTitleErr .CrossRef, resTitleErr .Dblp]).isSome
  ∧ fusedTitleDisc.field = .Title
  ∧ fusedTitleDisc.severity = .Error := by
  have h := fuseTitle_consensus_spec [resTitleErr .CrossRef, resTitleErr .Dblp]
  exact ⟨h.1.mpr (by decide), (h.2 fusedTitleDisc (by decide)).1,
    (h.2 fusedTitleDisc (by decide)).2.1⟩

/-! ## Matcher: `find_best_match` -/

/-- C5: `find_best_match` returns nothing exactly when no candidate reaches
`TITLE_MATCH_THRESHOLD`; otherwise it returns a candidate of maximal
similarity together with that similarity, which is at or above the
threshold — it never returns a candidate below the threshold. -/
theorem findBestMatch_spec (jw : String → String → ℚ) (norm : String → String)
    (target : Entry) (candidates : List Entry) :
    (findBestMatch jw norm target candidates = none ↔
      ∀ c ∈ candidates, titleSimilarity jw norm target c < TITLE_MATCH_THRESHOLD)
  ∧ (∀ c s, findBestMatch jw norm target candidates = some (c, s) →
      c ∈ candidates ∧ s = titleSimilarity jw norm target c ∧
      TITLE_MATCH_THRESHOLD ≤ s ∧
      ∀ c' ∈ candidates, titleSimilarity jw norm target c' ≤ s) := by
  constructor
  · rw [show findBestMatch jw norm target candidates
        = lastMaxByKey (fun p => p.2)
            ((candidates.map (fun c => (c, titleSimilarity jw norm target c))).filter
              (fun p => decide (TITLE_MATCH_THRESHOLD ≤ p.2))) from rfl]
    rw [lastMaxByKey_eq_none]
    constructor
    · intro hnil c hc
      by_contra hge
      push_neg at hge
      have hmem : (c, titleSimilarity jw norm target c)
          ∈ (candidates.map (fun c => (c, titleSimilarity jw norm target c))).filter
              (fun p => decide (TITLE_MATCH_THRESHOLD ≤ p.2)) :=
        List.mem_filter.mpr ⟨List.mem_map_of_mem _ hc, by simp [hge]⟩
      rw [hnil] at hmem
      cases hmem
    · intro hall
      rw [List.filter_eq_nil_iff]
      intro p hp
      obtain ⟨c, hc, rfl⟩ := List.mem_map.mp hp
      simp [not_le.mpr (hall c hc)]
  · intro c s h
    have h' : lastMaxByKey (fun p : Entry × ℚ => p.2)
        ((candidates.map (fun c => (c, titleSimilarity jw norm target c))).filter
          (fun p => decide (TITLE_MATCH_THRESHOLD ≤ p.2))) = some (c, s) := h
    have hmem := lastMaxByKey_mem h'
    have hle := lastMaxByKey_le h'
    obtain ⟨hmm, hpp⟩ := List.mem_filter.mp hmem
    obtain ⟨c0, hc0, heq⟩ := List.mem_map.mp hmm
    injection heq with h1 h2
    subst h1
    subst h2
    have hth : TITLE_MATCH_THRESHOLD ≤ titleSimilarity jw norm target c0 := by
      simpa using hpp
    refine ⟨hc0, rfl, hth, ?_⟩
    intro c' hc'
    by_cases hth' : TITLE_MATCH_THRESHOLD ≤ titleSimilarity jw norm target c'
    · exact hle (c', titleSimilarity jw norm target c')
        (List.mem_filter.mpr ⟨List.mem_map_of_mem _ hc', by simp [hth']⟩)
    · exact le_trans (le_of_lt (not_le.mp hth')) hth

/-- C5 witness: among two candidates at similarities `0.86` and `1`, the
exact-title candidate is returned with score `1`, which is in the candidate
list and at or above the threshold. -/
theorem findBestMatch_spec_witness :
    findBestMatch jwNear id (entryWithTitle (some "x"))
        [entryWithTitle (some "y"), entryWithTitle (some "x")]
      = some (entryWithTitle (some "x"), 1)
  ∧ entryWithTitle (some "x") ∈ [entryWithTitle (some "y"), entryWithTitle (some "x")]
  ∧ TITLE_MATCH_THRESHOLD ≤ (1 : ℚ) := by
  have h := (findBestMatch_spec jwNear id (entryWithTitle (some "x"))
    [entryWithTitle (some "y"), entryWithTitle (some "x")]).2
    (entryWithTitle (some "x")) 1 (by decide)
  exact ⟨by decide, h.1, h.2.2.1⟩

/-! ## Year consensus (`fuse_year`) -/

theorem yearVotes_ne_nil (results : List ValidationResult) (y : Int)
    (h : yearVotes results y ≠ []) : y ∈ remoteYears results := by
  obtain ⟨src, hsrc⟩ := List.exists_mem_of_ne_nil _ h
  obtain ⟨r, hr, hf⟩ := List.mem_filterMap.mp hsrc
  cases hy : remoteYearOf r with
  | none =>
    rw [hy] at hf
    cases hf
  | some y2 =>
    rw [hy] at hf
    simp only at hf
    by_cases he : y2 = y
    · subst he
      exact List.mem_filterMap.mpr ⟨r, hr, hy⟩
    · rw [if_neg he] at hf
      cases hf

theorem modalYearChoice_spec (order : List Int) (results : List ValidationResult)
    (ho : yearOrderOK results order) (y : Int) (ss : List ApiSource)
    (h : modalYearChoice order results = some (y, ss)) :
    y ∈ order ∧ ss = yearVotes results y ∧
      ∀ y' : Int, (yearVotes results y').length ≤ (yearVotes results y).length := by
  have hmem := lastMaxByKey_mem h
  have hle := lastMaxByKey_le h
  obtain ⟨y0, hy0, heq⟩ := List.mem_map.mp hmem
  injection heq with h1 h2
  subst h1
  subst h2
  refine ⟨hy0, rfl, ?_⟩
  intro y'
  by_cases hy' : y' ∈ order
  · have := hle (y', yearVotes results y') (List.mem_map_of_mem _ hy')
    simpa using this
  · have hnil : yearVotes results y' = [] := by
      by_contra hc
      exact hy' (ho.mem_iff.mpr (List.mem_dedup.mpr (yearVotes_ne_nil results y' hc)))
    simp [hnil]

theorem fuseYear_eq_of_some (order : List Int) (loc : Entry)
    (results : List ValidationResult) (ly y : Int) (ss : List ApiSource)
    (hly : loc.year = some ly) (hm : modalYearChoice order results = some (y, ss)) :
    fuseYear order loc results =
      if y ≠ ly ∧ 2 ≤ ss.length then
        some
          { field := .Year
            severity := .Error
            local_value := toString ly
            remote_value := toString y
            message := "Year mismatch: " ++ toString ly ++ " vs " ++ toString y
              ++ " (agreed by "
              ++ String.intercalate ", " (ss.map ApiSource.display) ++ ")" }
      else none := by
  unfold fuseYear
  rw [hly, hm]

theorem fuseYear_eq_of_none_modal (order : List Int) (loc : Entry)
    (results : List ValidationResult) (ly : Int)
    (hly : loc.year = some ly) (hm : modalYearChoice order results = none) :
    fuseYear order loc results = none := by
  unfold fuseYear
  rw [hly, hm]

/-- C2: with a local year present, `fuse_year` emits a discrepancy exactly
when the modal remote year it selects differs from the local year and has at
least two witnesses; any emitted discrepancy is a Year Error whose year is
modal among all remote years and has at least two provider witnesses; and
with no local year nothing is emitted. -/
theorem fuseYear_consensus_spec (order : List Int) (loc : Entry)
    (results : List ValidationResult) (ho : yearOrderOK results order) :
    (loc.year = none → fuseYear order loc results = none)
  ∧ (∀ ly, loc.year = some ly →
      ((fuseYear order loc results).isSome ↔
        ∃ y ss, modalYearChoice order results = some (y, ss) ∧ y ≠ ly ∧ 2 ≤ ss.length))
  ∧ (∀ d, fuseYear order loc results = some d →
      d.field = .Year ∧ d.severity = .Error ∧
      ∃ ly y, loc.year = some ly ∧ y ≠ ly ∧
        2 ≤ (yearVotes results y).length ∧
        (∀ y' : Int, (yearVotes results y').length ≤ (yearVotes results y).length) ∧
        d.local_value = toString ly ∧ d.remote_value = toString y ∧
        d.message = "Year mismatch: " ++ toString ly ++ " vs " ++ toString y
          ++ " (agreed by "
          ++ String.intercalate ", " ((yearVotes results y).map ApiSource.display)
          ++ ")") := by
  refine ⟨?_, ?_, ?_⟩
  · intro h
    simp [fuseYear, h]
  · intro ly hly
    obtain hm | ⟨⟨y, ss⟩, hm⟩ := Option.eq_none_or_eq_some (modalYearChoice order results)
    · rw [fuseYear_eq_of_none_modal order loc results ly hly hm]
      constructor
      · intro h
        simp at h
      · rintro ⟨y, ss, hsome, -, -⟩
        rw [hm] at hsome
        cases hsome
    · rw [fuseYear_eq_of_some order loc results ly y ss hly hm]
      by_cases hc : y ≠ ly ∧ 2 ≤ ss.length
      · rw [if_pos hc]
        exact ⟨fun _ => ⟨y, ss, hm, hc.1, hc.2⟩, fun _ => rfl⟩
      · rw [if_neg hc]
        constructor
        · intro h
          simp at h
        · rintro ⟨y', ss', hsome, hne, hlen⟩
          rw [hm] at hsome
          cases Option.some.inj hsome
          exact absurd ⟨hne, hlen⟩ hc
  · intro d hd
    obtain hly | ⟨ly, hly⟩ := Option.eq_none_or_eq_some loc.year
    · rw [show fuseYear order loc results = none by unfold fuseYear; rw [hly]] at hd
      cases hd
    · obtain hm | ⟨⟨y, ss⟩, hm⟩ := Option.eq_none_or_eq_some (modalYearChoice order results)
      · rw [fuseYear_eq_of_none_modal order loc results ly hly hm] at hd
        cases hd
      · rw [fuseYear_eq_of_some order loc results ly y ss hly hm] at hd
        by_cases hc : y ≠ ly ∧ 2 ≤ ss.length
        · rw [if_pos hc] at hd
          obtain ⟨-, hss, hmax⟩ := modalYearChoice_spec order results ho y ss hm
          subst hss
          cases hd
          exact ⟨rfl, rfl, ly, y, hly, hc.1, hc.2, hmax, rfl, rfl, rfl⟩
        · rw [if_neg hc] at hd
          cases hd

/-- C2 witness: local year 2020 against remote votes 2019 (CrossRef), 2019
(DBLP), 2020 (Semantic Scholar) — the modal year 2019 has two witnesses and
differs from the local year, so a discrepancy is emitted. -/
theorem fuseYear_consensus_spec_witness :
    yearOrderOK resY [2019, 2020] ∧ (fuseYear [2019, 2020] locY resY).isSome := by
  have h := fuseYear_consensus_spec [2019, 2020] locY resY (by decide)
  exact ⟨by decide,
    (h.2.1 2020 (by decide)).mpr ⟨2019, [.CrossRef, .Dblp], by decide, by decide, by decide⟩⟩

/-! ## Determinism of fusion (hash-map iteration order) -/

/-- C9 counterexample: with the remote years 2019 and 2019 and 2020 and 2020
tied for modal against a local year of 2020, two admissible hash-map
iteration orders give different fused results — one emits a Year Error, the
other does not.  `fuse_results` is therefore not a function of its arguments
alone: it also depends on the randomized `HashMap` iteration order. -/
theorem fuseResults_order_dependent :
    yearOrderOK (retainedList resTie) [2019, 2020]
  ∧ yearOrderOK (retainedList resTie) [2020, 2019]
  ∧ countOrderOK locY (retainedList resTie) []
  ∧ fuseResults [2019, 2020] [] locY resTie ≠ fuseResults [2020, 2019] [] locY resTie := by
  exact ⟨by decide, by decide, by decide, by decide⟩

theorem modalYearChoice_perm_eq (results : List ValidationResult) (o1 o2 : List Int)
    (h1 : yearOrderOK results o1) (h2 : yearOrderOK results o2)
    (hu : uniqueMaxKeys (remoteYears results).dedup
      (fun y => (yearVotes results y).length)) :
    modalYearChoice o1 results = modalYearChoice o2 results := by
  have hnil : o1 = [] ↔ o2 = [] := by
    constructor
    · intro h
      exact (h2.trans (h ▸ h1).symm).eq_nil
    · intro h
      exact (h1.trans (h ▸ h2).symm).eq_nil
  obtain hm1 | ⟨⟨y1, s1⟩, hm1⟩ := Option.eq_none_or_eq_some (modalYearChoice o1 results)
  · have ho1 : o1 = [] :=
      List.map_eq_nil_iff.mp ((lastMaxByKey_eq_none _ _).mp hm1)
    have ho2 : o2 = [] := hnil.mp ho1
    rw [hm1, ho2]
    rfl
  · have ho1 : o1 ≠ [] := by
      intro hc
      rw [hc] at hm1
      cases hm1
    have ho2 : o2 ≠ [] := fun hc => ho1 (hnil.mpr hc)
    obtain hm2 | ⟨⟨y2, s2⟩, hm2⟩ := Option.eq_none_or_eq_some (modalYearChoice o2 results)
    · have : o2 = [] := List.map_eq_nil_iff.mp ((lastMaxByKey_eq_none _ _).mp hm2)
      exact absurd this ho2
    · obtain ⟨hy1, hs1, hmax1⟩ := modalYearChoice_spec o1 results h1 y1 s1 hm1
      obtain ⟨hy2, hs2, hmax2⟩ := modalYearChoice_spec o2 results h2 y2 s2 hm2
      have hkey : y1 = y2 :=
        hu y1 (h1.mem_iff.mp hy1) y2 (h2.mem_iff.mp hy2)
          (fun k _ => hmax1 k) (fun k _ => hmax2 k)
      rw [hm1, hm2, hs1, hs2, hkey]

theorem countVotes_spec (loc : Entry) (results : List ValidationResult)
    (o : List Nat) (h : countOrderOK loc results o) (n : Nat) (ag : Nat)
    (hm : lastMaxByKey (fun b => b.2)
      (o.map (fun n => (n, countVotes loc results n))) = some (n, ag)) :
    n ∈ o ∧ ag = countVotes loc results n ∧
      ∀ n' : Nat, countVotes loc results n' ≤ countVotes loc results n := by
  have hmem := lastMaxByKey_mem hm
  have hle := lastMaxByKey_le hm
  obtain ⟨n0, hn0, heq⟩ := List.mem_map.mp hmem
  injection heq with hq1 hq2
  subst hq1
  subst hq2
  refine ⟨hn0, rfl, ?_⟩
  intro n'
  by_cases hn' : n' ∈ o
  · have := hle (n', countVotes loc results n') (List.mem_map_of_mem _ hn')
    simpa using this
  · have hz : countVotes loc results n' = 0 := by
      rw [countVotes, List.count_eq_zero]
      intro hc
      exact hn' (h.mem_iff.mpr (List.mem_dedup.mpr hc))
    simp [hz]

theorem countChoice_perm_eq (loc : Entry) (results : List ValidationResult)
    (o1 o2 : List Nat)
    (h1 : countOrderOK loc results o1) (h2 : countOrderOK loc results o2)
    (hu : uniqueMaxKeys (mismatchCounts loc results).dedup (countVotes loc results)) :
    lastMaxByKey (fun b => b.2) (o1.map (fun n => (n, countVotes loc results n)))
      = lastMaxByKey (fun b => b.2) (o2.map (fun n => (n, countVotes loc results n))) := by
  have hnil : o1 = [] ↔ o2 = [] := by
    constructor
    · intro h
      exact (h2.trans (h ▸ h1).symm).eq_nil
    · intro h
      exact (h1.trans (h ▸ h2).symm).eq_nil
  obtain hm1 | ⟨⟨n1, a1⟩, hm1⟩ := Option.eq_none_or_eq_some
    (lastMaxByKey (fun b => b.2) (o1.map (fun n => (n, countVotes loc results n))))
  · have ho1 : o1 = [] :=
      List.map_eq_nil_iff.mp ((lastMaxByKey_eq_none _ _).mp hm1)
    have ho2 : o2 = [] := hnil.mp ho1
    rw [hm1, ho2]
    rfl
  · have ho1 : o1 ≠ [] := by
      intro hc
      rw [hc] at hm1
      cases hm1
    have ho2 : o2 ≠ [] := fun hc => ho1 (hnil.mpr hc)
    obtain hm2 | ⟨⟨n2, a2⟩, hm2⟩ := Option.eq_none_or_eq_some
      (lastMaxByKey (fun b => b.2) (o2.map (fun n => (n, countVotes loc results n))))
    · have : o2 = [] := List.map_eq_nil_iff.mp ((lastMaxByKey_eq_none _ _).mp hm2)
      exact absurd this ho2
    · obtain ⟨hn1, ha1, hmax1⟩ := countVotes_spec loc results o1 h1 n1 a1 hm1
      obtain ⟨hn2, ha2, hmax2⟩ := countVotes_spec loc results o2 h2 n2 a2 hm2
      have hkey : n1 = n2 :=
        hu n1 (h1.mem_iff.mp hn1) n2 (h2.mem_iff.mp hn2)
          (fun k _ => hmax1 k) (fun k _ => hmax2 k)
      rw [hm1, hm2, ha1, ha2, hkey]

theorem fuseYear_perm_eq (loc : Entry) (results : List ValidationResult)
    (o1 o2 : List Int) (h1 : yearOrderOK results o1) (h2 : yearOrderOK results o2)
    (hu : uniqueMaxKeys (remoteYears results).dedup
      (fun y => (yearVotes results y).length)) :
    fuseYear o1 loc results = fuseYear o2 loc results := by
  unfold fuseYear
  rw [modalYearChoice_perm_eq results o1 o2 h1 h2 hu]

theorem fuseAuthors_perm_eq (loc : Entry) (results : List ValidationResult)
    (o1 o2 : List Nat) (h1 : countOrderOK loc results o1) (h2 : countOrderOK loc results o2)
    (hu : uniqueMaxKeys (mismatchCounts loc results).dedup (countVotes loc results)) :
    fuseAuthors o1 loc results = fuseAuthors o2 loc results := by
  simp only [fuseAuthors]
  rw [countChoice_perm_eq loc results o1 o2 h1 h2 hu]

/-- C9 (amended): for fixed hash-map iteration orders `fuse_results` is a
pure function of its inputs, and whenever the maximal year-vote count and
the maximal author-count tally are each attained by a single key, the result
does not depend on the iteration orders at all.  (The counterexample shows
the restriction is necessary: on ties the outcome varies with the order.) -/
theorem fuseResults_deterministic (yo1 yo2 : List Int) (co1 co2 : List Nat)
    (loc : Entry) (results : List ValidationResult)
    (hy1 : yearOrderOK (retainedList results) yo1)
    (hy2 : yearOrderOK (retainedList results) yo2)
    (hc1 : countOrderOK loc (retainedList results) co1)
    (hc2 : countOrderOK loc (retainedList results) co2)
    (huy : uniqueMaxKeys (remoteYears (retainedList results)).dedup
      (fun y => (yearVotes (retainedList results) y).length))
    (huc : uniqueMaxKeys (mismatchCounts loc (retainedList results)).dedup
      (countVotes loc (retainedList results))) :
    fuseResults yo1 co1 loc results = fuseResults yo2 co2 loc results := by
  simp only [fuseResults]
  by_cases h : (results.filter retainedP).isEmpty = true
  · simp only [if_pos h]
  · simp only [if_neg h]
    rw [fuseYear_perm_eq loc (results.filter retainedP) yo1 yo2 hy1 hy2 huy,
      fuseAuthors_perm_eq loc (results.filter retainedP) co1 co2 hc1 hc2 huc]

/-- C9 witness: with a unique modal year (2019, two votes against one) the
two iteration orders agree. -/
theorem fuseResults_deterministic_witness :
    fuseResults [2019, 2020] [] locY resY = fuseResults [2020, 2019] [] locY resY :=
  fuseResults_deterministic [2019, 2020] [2020, 2019] [] [] locY resY
    (by decide) (by decide) (by decide) (by decide) (by decide) (by decide)

/-! ## Similarity percentage rendering (`compare_entries`) -/

/-- C8 (amended): a title similarity `s` below `TITLE_WARNING_THRESHOLD`
produces a Title discrepancy whose rendered percentage is `s * 100` rounded
to the nearest integer with ties to even (Rust's `{:.0}` formatting) — not
truncated toward zero. -/
theorem compareEntries_percent_spec (jw : String → String → ℚ) (norm : String → String)
    (loc rem : Entry) (lt rt : String) (s : ℚ)
    (hl : loc.title = some lt) (hr : rem.title = some rt)
    (hs : jw (norm lt) (norm rt) = s) (hw : s < TITLE_WARNING_THRESHOLD) :
    ∃ d ∈ compareEntries jw norm loc rem, d.field = .Title ∧
      d.message =
        (if s < TITLE_MATCH_THRESHOLD then "Title significantly different (similarity: "
         else "Title slightly different (similarity: ")
          ++ toString (roundHalfEven (s * 100)) ++ "%)" := by
  subst hs
  by_cases hm : jw (norm lt) (norm rt) < TITLE_MATCH_THRESHOLD
  · refine ⟨{ field := .Title
              severity := .Error
              local_value := lt
              remote_value := rt
              message := "Title significantly different (similarity: "
                ++ toString (roundHalfEven (jw (norm lt) (norm rt) * 100)) ++ "%)" },
      ?_, rfl, ?_⟩
    · unfold compareEntries
      apply List.mem_append_left
      apply List.mem_append_left
      apply List.mem_append_left
      apply List.mem_append_left
      unfold compareTitles
      rw [hl, hr]
      simp only
      rw [if_pos hm]
      exact List.mem_singleton.mpr rfl
    · rw [if_pos hm]
  · refine ⟨{ field := .Title
              severity := .Warning
              local_value := lt
              remote_value := rt
              message := "Title slightly different (similarity: "
                ++ toString (roundHalfEven (jw (norm lt) (norm rt) * 100)) ++ "%)" },
      ?_, rfl, ?_⟩
    · unfold compareEntries
      apply List.mem_append_left
      apply List.mem_append_left
      apply List.mem_append_left
      apply List.mem_append_left
      unfold compareTitles
      rw [hl, hr]
      simp only
      rw [if_neg hm, if_pos hw]
      exact List.mem_singleton.mpr rfl
    · rw [if_neg hm]

/-- C8 witness: similarity 0.856 between present titles triggers the Warning
branch with the rounded percentage. -/
theorem compareEntries_percent_spec_witness :
    ∃ d ∈ compareEntries jwPct id locPct remPct, d.field = .Title ∧
      d.message =
        (if Rat.divInt 107 125 < TITLE_MATCH_THRESHOLD then
          "Title significantly different (similarity: "
         else "Title slightly different (similarity: ")
          ++ toString (roundHalfEven (Rat.divInt 107 125 * 100)) ++ "%)" :=
  compareEntries_percent_spec jwPct id locPct remPct "a" "b" (Rat.divInt 107 125)
    rfl rfl rfl (by decide)

/-- C8 counterexample: at similarity `0.856` (between the thresholds, so a
Title discrepancy is emitted) the code renders `86%` — `85.6` rounded to
nearest — while truncation toward zero of `s * 100` would give `85`. -/
theorem compareEntries_percent_not_truncated :
    compareEntries jwPct id locPct remPct =
      [{ field := .Title
         severity := .Warning
         local_value := "a"
         remote_value := "b"
         message := "Title slightly different (similarity: 86%)" }]
  ∧ Rat.divInt 107 125 * 100 = Rat.divInt 428 5
  ∧ truncToZero (Rat.divInt 428 5) = 85
  ∧ (Rat.divInt 428 5).num.ediv (Rat.divInt 428 5).den = 85
  ∧ "Title slightly different (similarity: 86%)"
      ≠ "Title slightly different (similarity: 85%)" := by
  have hmul : Rat.divInt 107 125 * 100 = Rat.divInt 428 5 := by
    rw [Rat.divInt_eq_div, Rat.divInt_eq_div]
    norm_num
  refine ⟨?_, hmul, by decide, by decide, by decide⟩
  have ht : compareTitles jwPct id locPct remPct =
      [{ field := .Title
         severity := .Warning
         local_value := "a"
         remote_value := "b"
         message := "Title slightly different (similarity: "
           ++ toString (roundHalfEven (Rat.divInt 107 125 * 100)) ++ "%)" }] := by
    unfold compareTitles
    rw [show locPct.title = some "a" from rfl, show remPct.title = some "b" from rfl]
    simp only
    rw [if_neg (by decide), if_pos (by decide)]
    exact rfl
  rw [show compareEntries jwPct id locPct remPct
      = compareTitles jwPct id locPct remPct ++ [] ++ [] ++ [] ++ [] from rfl]
  rw [ht, hmul]
  rw [show toString (roundHalfEven (Rat.divInt 428 5)) = "86" from by decide]
  rfl

/-! ## Normalization: `splitWs` infrastructure -/

theorem splitWs_nil {α : Type} (isWs : α → Bool) : splitWs isWs ([] : List α) = [] := by
  simp [splitWs]

theorem splitWs_cons {α : Type} (isWs : α → Bool) (c : α) (cs : List α) :
    splitWs isWs (c :: cs) =
      if isWs c then splitWs isWs cs
      else ((c :: cs).takeWhile (fun x => !isWs x))
        :: splitWs isWs ((c :: cs).dropWhile (fun x => !isWs x)) := by
  rw [splitWs]

theorem takeWhile_all {α : Type} (p : α → Bool) (l : List α)
    (h : ∀ c ∈ l, p c = true) : l.takeWhile p = l := by
  induction l with
  | nil => rfl
  | cons c t ih =>
    rw [List.takeWhile_cons, if_pos (h c (List.mem_cons_self _ _)),
      ih (fun c hc => h c (List.mem_cons_of_mem _ hc))]

theorem dropWhile_all {α : Type} (p : α → Bool) (l : List α)
    (h : ∀ c ∈ l, p c = true) : l.dropWhile p = [] := by
  induction l with
  | nil => rfl
  | cons c t ih =>
    rw [List.dropWhile_cons, if_pos (h c (List.mem_cons_self _ _))]
    exact ih (fun c hc => h c (List.mem_cons_of_mem _ hc))

theorem takeWhile_word {α : Type} (p : α → Bool) (w : List α) (sp : α) (t : List α)
    (hw : ∀ c ∈ w, p c = true) (hsp : p sp = false) :
    (w ++ sp :: t).takeWhile p = w := by
  induction w with
  | nil => simp [List.takeWhile_cons, hsp]
  | cons c w ih =>
    rw [List.cons_append, List.takeWhile_cons, if_pos (hw c (List.mem_cons_self _ _)),
      ih (fun c hc => hw c (List.mem_cons_of_mem _ hc))]

theorem dropWhile_word {α : Type} (p : α → Bool) (w : List α) (sp : α) (t : List α)
    (hw : ∀ c ∈ w, p c = true) (hsp : p sp = false) :
    (w ++ sp :: t).dropWhile p = sp :: t := by
  induction w with
  | nil => simp [List.dropWhile_cons, hsp]
  | cons c w ih =>
    rw [List.cons_append, List.dropWhile_cons, if_pos (hw c (List.mem_cons_self _ _))]
    exact ih (fun c hc => hw c (List.mem_cons_of_mem _ hc))

theorem splitWs_single_word {α : Type} (isWs : α → Bool) (w : List α)
    (hne : w ≠ []) (hw : ∀ c ∈ w, isWs c = false) : splitWs isWs w = [w] := by
  obtain ⟨c, w', rfl⟩ := List.exists_cons_of_ne_nil hne
  rw [splitWs_cons, if_neg (by simp [hw c (List.mem_cons_self _ _)])]
  rw [takeWhile_all _ _ (fun x hx => by simp [hw x hx]),
    dropWhile_all _ _ (fun x hx => by simp [hw x hx]), splitWs_nil]

theorem splitWs_word_cons {α : Type} (isWs : α → Bool) (w : List α) (sp : α)
    (t : List α) (hne : w ≠ []) (hw : ∀ c ∈ w, isWs c = false)
    (hsp : isWs sp = true) :
    splitWs isWs (w ++ sp :: t) = w :: splitWs isWs t := by
  obtain ⟨c, w', rfl⟩ := List.exists_cons_of_ne_nil hne
  rw [List.cons_append, splitWs_cons, if_neg (by simp [hw c (List.mem_cons_self _ _)])]
  rw [← List.cons_append]
  rw [takeWhile_word _ _ _ _ (fun x hx => by simp [hw x hx]) (by simp [hsp]),
    dropWhile_word _ _ _ _ (fun x hx => by simp [hw x hx]) (by simp [hsp])]
  rw [splitWs_cons, if_pos hsp]

theorem splitWs_forall_aux {α : Type} (isWs : α → Bool) (n : Nat) :
    ∀ l : List α, l.length ≤ n → ∀ w ∈ splitWs isWs l,
      w ≠ [] ∧ ∀ c ∈ w, isWs c = false ∧ c ∈ l := by
  induction n with
  | zero =>
    intro l hl
    rw [List.length_eq_zero.mp (Nat.le_zero.mp hl), splitWs_nil]
    intro w hw
    cases hw
  | succ n ih =>
    intro l hl w hw
    cases l with
    | nil =>
      rw [splitWs_nil] at hw
      cases hw
    | cons c cs =>
      rw [splitWs_cons] at hw
      by_cases hc : isWs c = true
      · rw [if_pos hc] at hw
        obtain ⟨hne, hprops⟩ := ih cs (by simpa using Nat.le_of_succ_le_succ hl) w hw
        exact ⟨hne, fun x hx =>
          ⟨(hprops x hx).1, List.mem_cons_of_mem _ (hprops x hx).2⟩⟩
      · rw [if_neg hc] at hw
        rcases List.mem_cons.mp hw with rfl | hw'
        · refine ⟨?_, ?_⟩
          · rw [List.takeWhile_cons, if_pos (by simp [hc])]
            simp
          · intro x hx
            refine ⟨by simpa using List.mem_takeWhile_imp hx, ?_⟩
            exact (List.takeWhile_sublist _).subset hx
        · have hdrop : (c :: cs).dropWhile (fun x => !isWs x) = cs.dropWhile (fun x => !isWs x) := by
            rw [List.dropWhile_cons, if_pos (by simp [hc])]
          rw [hdrop] at hw'
          have hlen : (cs.dropWhile (fun x => !isWs x)).length ≤ n := by
            have h1 := (List.dropWhile_sublist (l := cs) (fun x => !isWs x)).length_le
            have h2 : cs.length ≤ n := by simpa using Nat.le_of_succ_le_succ hl
            omega
          obtain ⟨hne, hprops⟩ := ih _ hlen w hw'
          refine ⟨hne, fun x hx => ⟨(hprops x hx).1, ?_⟩⟩
          have : x ∈ cs.dropWhile (fun x => !isWs x) := (hprops x hx).2
          exact List.mem_cons_of_mem _ ((List.dropWhile_sublist _).subset this)

theorem splitWs_forall {α : Type} (isWs : α → Bool) (l : List α) :
    ∀ w ∈ splitWs isWs l, w ≠ [] ∧ ∀ c ∈ w, isWs c = false ∧ c ∈ l :=
  splitWs_forall_aux isWs l.length l le_rfl

theorem intercalate_nil_words {α : Type} (sp : α) :
    List.intercalate [sp] ([] : List (List α)) = [] := by
  simp [List.intercalate]

theorem intercalate_single {α : Type} (sp : α) (w : List α) :
    List.intercalate [sp] [w] = w := by
  simp [List.intercalate]

theorem intercalate_cons_cons {α : Type} (sp : α) (w w2 : List α)
    (ws : List (List α)) :
    List.intercalate [sp] (w :: w2 :: ws)
      = w ++ sp :: List.intercalate [sp] (w2 :: ws) := by
  simp [List.intercalate, List.intersperse_cons_cons]

theorem mem_intercalate_words {α : Type} (sp : α) (ws : List (List α)) (c : α)
    (h : c ∈ List.intercalate [sp] ws) : c = sp ∨ ∃ w ∈ ws, c ∈ w := by
  induction ws with
  | nil =>
    rw [intercalate_nil_words] at h
    cases h
  | cons w ws ih =>
    cases ws with
    | nil =>
      rw [intercalate_single] at h
      exact Or.inr ⟨w, List.mem_cons_self _ _, h⟩
    | cons w2 ws' =>
      rw [intercalate_cons_cons] at h
      rcases List.mem_append.mp h with hw | hrest
      · exact Or.inr ⟨w, List.mem_cons_self _ _, hw⟩
      · rcases List.mem_cons.mp hrest with rfl | htail
        · exact Or.inl rfl
        · rcases ih htail with hsp | ⟨w', hw', hcw'⟩
          · exact Or.inl hsp
          · exact Or.inr ⟨w', List.mem_cons_of_mem _ hw', hcw'⟩

theorem splitWs_intercalate {α : Type} (isWs : α → Bool) (sp : α)
    (hsp : isWs sp = true) (ws : List (List α))
    (h : ∀ w ∈ ws, w ≠ [] ∧ ∀ c ∈ w, isWs c = false) :
    splitWs isWs (List.intercalate [sp] ws) = ws := by
  induction ws with
  | nil =>
    rw [intercalate_nil_words, splitWs_nil]
  | cons w ws ih =>
    cases ws with
    | nil =>
      rw [intercalate_single]
      exact splitWs_single_word isWs w (h w (List.mem_cons_self _ _)).1
        (h w (List.mem_cons_self _ _)).2
    | cons w2 ws' =>
      rw [intercalate_cons_cons,
        splitWs_word_cons isWs w sp _ (h w (List.mem_cons_self _ _)).1
          (h w (List.mem_cons_self _ _)).2 hsp,
        ih (fun w' hw' => h w' (List.mem_cons_of_mem _ hw'))]

theorem flatMap_eq_self {α : Type} (f : α → List α) (l : List α)
    (h : ∀ c ∈ l, f c = [c]) : l.flatMap f = l := by
  induction l with
  | nil => rfl
  | cons c t ih =>
    rw [List.flatMap_cons, h c (List.mem_cons_self _ _),
      ih (fun c hc => h c (List.mem_cons_of_mem _ hc))]
    rfl

/-- C6: `normalize_string` is idempotent for every character model in which
lowering a lowered character is the identity, the join character `' '` is
whitespace, and lowering fixes it — the facts Unicode provides for the Rust
implementation. -/
theorem normalizeString_idempotent {α : Type} (M : CharModel α)
    (h1 : ∀ c c', c' ∈ M.toLower c → M.toLower c' = [c'])
    (h2 : M.toLower M.space = [M.space])
    (h3 : M.isWs M.space = true)
    (s : List α) :
    normalizeString M (normalizeString M s) = normalizeString M s := by
  have hout : normalizeString M s =
      List.intercalate [M.space]
        (splitWs M.isWs ((s.flatMap M.toLower).filter (keepP M))) := rfl
  rw [hout]
  have hwords := splitWs_forall M.isWs ((s.flatMap M.toLower).filter (keepP M))
  have hchars : ∀ c ∈ List.intercalate [M.space]
      (splitWs M.isWs ((s.flatMap M.toLower).filter (keepP M))),
      c = M.space ∨ (c ∈ (s.flatMap M.toLower).filter (keepP M) ∧ M.isWs c = false) := by
    intro c hc
    rcases mem_intercalate_words M.space _ c hc with h | ⟨w, hw, hcw⟩
    · exact Or.inl h
    · obtain ⟨-, hprops⟩ := hwords w hw
      exact Or.inr ⟨(hprops c hcw).2, (hprops c hcw).1⟩
  have hlow : ∀ c ∈ List.intercalate [M.space]
      (splitWs M.isWs ((s.flatMap M.toLower).filter (keepP M))), M.toLower c = [c] := by
    intro c hc
    rcases hchars c hc with rfl | ⟨hcl, -⟩
    · exact h2
    · obtain ⟨c0, -, hc0⟩ := List.mem_flatMap.mp (List.mem_of_mem_filter hcl)
      exact h1 c0 c hc0
  have hkeep : ∀ c ∈ List.intercalate [M.space]
      (splitWs M.isWs ((s.flatMap M.toLower).filter (keepP M))), keepP M c = true := by
    intro c hc
    rcases hchars c hc with rfl | ⟨hcl, -⟩
    · simp [keepP, h3]
    · exact List.of_mem_filter hcl
  show List.intercalate [M.space]
      (splitWs M.isWs
        (((List.intercalate [M.space]
            (splitWs M.isWs ((s.flatMap M.toLower).filter (keepP M)))).flatMap
          M.toLower).filter (keepP M))) = _
  rw [flatMap_eq_self _ _ hlow, List.filter_eq_self.mpr hkeep,
    splitWs_intercalate M.isWs M.space h3 _
      (fun w hw => ⟨(hwords w hw).1, fun c hc => ((hwords w hw).2 c hc).1⟩)]

/-- C6 witness: the hypotheses hold for a concrete three-character model and
idempotence follows on a concrete string. -/
theorem normalizeString_idempotent_witness :
    (∀ c c' : Fin 3, c' ∈ charModel3.toLower c → charModel3.toLower c' = [c'])
  ∧ charModel3.toLower charModel3.space = [charModel3.space]
  ∧ charModel3.isWs charModel3.space = true
  ∧ normalizeString charModel3 (normalizeString charModel3 [2, 0, 0, 1, 0])
      = normalizeString charModel3 [2, 0, 0, 1, 0] :=
  ⟨by decide, by decide, by decide,
    normalizeString_idempotent charModel3 (by decide) (by decide) (by decide) [2, 0, 0, 1, 0]⟩

end BibVal
